import Mathlib

/-!
Verification of the go-paginate library (github.com/KARTIKrocks/go-paginate).

The development shallowly embeds the library's pagination model:

* the cursor codec (`EncodeCursor` / `DecodeCursor` in doc.go), built on Go's
  padded base64url codec `base64.URLEncoding`, which is modelled concretely
  byte-for-byte (`b64encodeBytes` / `b64decode`);
* the Range-header micro-grammar parser (`ParseRangeHeader`) and the
  Content-Range formatters;
* the offset `Paginator` and `CursorPaginator` with their `With*`
  copy-on-write operations, validation, and the lenient query/map parsers.

Go machine integers (`int`, `int64`, both 64-bit here) are modelled as `Int`
with explicit wrap-around (`wrap64`) at the operations where the Go code can
overflow.  Go byte slices are `List Nat` (each element < 256), Go strings used
as opaque tokens are `List Char`, and Go strings used for formatting are Lean
`String`s.  The JSON layer (`encoding/json`) is an external collaborator of
the library; it is modelled as an abstract fallible codec (`JsonCodec`), with
a small concrete instance (`jsonIntCodec`) used to instantiate theorems at
concrete inputs.
-/

namespace Paginate

/-- Error kinds of the library (errors.go).  `errMarshal` stands for an error
coming out of `json.Marshal`, which the Go code passes through verbatim. -/
inductive PErr where
  | errInvalidPage
  | errInvalidPageSize
  | errInvalidCursor
  | errInvalidOffset
  | errInvalidRange
  | errMarshal
deriving DecidableEq, Repr

/-- Package constant `DefaultPage` (errors.go). -/
def DefaultPage : Int := 1

/-- Package constant `DefaultPageSize` (errors.go). -/
def DefaultPageSize : Int := 20

/-- Package constant `MaxPageSize` (errors.go). -/
def MaxPageSize : Int := 1000

/-- Package constant `MinPageSize` (errors.go). -/
def MinPageSize : Int := 1

/-- Wrap-around of 64-bit signed (two's complement) Go arithmetic. -/
def wrap64 (x : Int) : Int := (x + 2 ^ 63) % 2 ^ 64 - 2 ^ 63

/-- The alphabet of Go's `base64.URLEncoding`. -/
def b64chars : List Char :=
  ['A', 'B', 'C', 'D', 'E', 'F', 'G', 'H', 'I', 'J', 'K', 'L', 'M',
   'N', 'O', 'P', 'Q', 'R', 'S', 'T', 'U', 'V', 'W', 'X', 'Y', 'Z',
   'a', 'b', 'c', 'd', 'e', 'f', 'g', 'h', 'i', 'j', 'k', 'l', 'm',
   'n', 'o', 'p', 'q', 'r', 's', 't', 'u', 'v', 'w', 'x', 'y', 'z',
   '0', '1', '2', '3', '4', '5', '6', '7', '8', '9', '-', '_']

/-- The output character for a 6-bit group (indexing into the alphabet). -/
def natToB64 (v : Nat) : Char := b64chars.getD v 'A'

/-- The 6-bit value of an alphabet character; `none` for every character
outside the alphabet (including the padding character '='). -/
def b64Index (c : Char) : Option Nat := b64chars.findIdx? (· = c)

/-- Go `base64.URLEncoding.EncodeToString`: standard base64url with '='
padding, encoding three input bytes into four output characters. -/
def b64encodeBytes : List Nat → List Char
  | [] => []
  | [b1] =>
      [natToB64 (b1 / 4), natToB64 (b1 % 4 * 16), '=', '=']
  | [b1, b2] =>
      [natToB64 (b1 / 4), natToB64 (b1 % 4 * 16 + b2 / 16),
       natToB64 (b2 % 16 * 4), '=']
  | b1 :: b2 :: b3 :: rest =>
      natToB64 (b1 / 4) :: natToB64 (b1 % 4 * 16 + b2 / 16) ::
      natToB64 (b2 % 16 * 4 + b3 / 64) :: natToB64 (b3 % 64) ::
      b64encodeBytes rest

/-- The quantum loop of Go's padded base64 decoder: the input is consumed in
groups of four characters; '=' padding is legal only at the last one or two
positions of the final group; a trailing group of fewer than four characters
is an error.  Unused trailing bits are not checked (Go's non-`Strict` mode). -/
def b64decodeChunks : List Char → Option (List Nat)
  | [] => some []
  | c1 :: c2 :: c3 :: c4 :: rest =>
    if rest = [] ∧ c3 = '=' ∧ c4 = '=' then
      match b64Index c1, b64Index c2 with
      | some v1, some v2 => some [v1 * 4 + v2 / 16]
      | _, _ => none
    else if rest = [] ∧ c4 = '=' then
      match b64Index c1, b64Index c2, b64Index c3 with
      | some v1, some v2, some v3 =>
          some [v1 * 4 + v2 / 16, v2 % 16 * 16 + v3 / 4]
      | _, _, _ => none
    else
      match b64Index c1, b64Index c2, b64Index c3, b64Index c4,
            b64decodeChunks rest with
      | some v1, some v2, some v3, some v4, some bsR =>
          some ((v1 * 4 + v2 / 16) :: (v2 % 16 * 16 + v3 / 4) ::
                (v3 % 4 * 64 + v4) :: bsR)
      | _, _, _, _, _ => none
  | _ => none

/-- Character filter of Go's base64 decoder: carriage returns and newlines
are skipped anywhere in the input. -/
def notCRLF (c : Char) : Bool := c ≠ '\r' && c ≠ '\n'

/-- Go `base64.URLEncoding.DecodeString`: skip CR/LF, then decode the
padded quantums; `none` models a non-nil `error`. -/
def b64decode (s : List Char) : Option (List Nat) :=
  b64decodeChunks (s.filter notCRLF)

theorem b64chars_length : b64chars.length = 64 := by decide

theorem b64Index_natToB64 : ∀ v : Nat, v < 64 → b64Index (natToB64 v) = some v := by
  decide

theorem natToB64_spec (v : Nat) :
    natToB64 v ≠ '=' ∧ natToB64 v ≠ '\r' ∧ natToB64 v ≠ '\n' := by
  by_cases h : v < 64
  · revert h
    revert v
    decide
  · have hd : natToB64 v = 'A' := by
      unfold natToB64
      apply List.getD_eq_default
      rw [b64chars_length]
      omega

    rw [hd]
    decide

theorem b64encodeBytes_eq_nil_iff (bs : List Nat) :
    b64encodeBytes bs = [] ↔ bs = [] := by
  match bs with
  | [] => simp [b64encodeBytes]
  | [b1] => simp [b64encodeBytes]
  | [b1, b2] => simp [b64encodeBytes]
  | b1 :: b2 :: b3 :: rest => simp [b64encodeBytes]

theorem mem_b64encodeBytes (bs : List Nat) (c : Char) :
    c ∈ b64encodeBytes bs → (∃ v, c = natToB64 v) ∨ c = '=' := by
  induction bs using b64encodeBytes.induct with
  | case1 => intro h; simp [b64encodeBytes] at h
  | case2 b1 =>
      intro h
      simp only [b64encodeBytes, List.mem_cons, List.mem_singleton] at h
      rcases h with h | h | h | h | h
      · exact .inl ⟨_, h⟩
      · exact .inl ⟨_, h⟩
      · exact .inr h
      · exact .inr h
      · simp at h
  | case3 b1 b2 =>
      intro h
      simp only [b64encodeBytes, List.mem_cons, List.mem_singleton] at h
      rcases h with h | h | h | h | h
      · exact .inl ⟨_, h⟩
      · exact .inl ⟨_, h⟩
      · exact .inl ⟨_, h⟩
      · exact .inr h
      · simp at h
  | case4 b1 b2 b3 rest ih =>
      intro h
      simp only [b64encodeBytes, List.mem_cons] at h
      rcases h with h | h | h | h | h
      · exact .inl ⟨_, h⟩
      · exact .inl ⟨_, h⟩
      · exact .inl ⟨_, h⟩
      · exact .inl ⟨_, h⟩
      · exact ih h

theorem b64encode_filter (bs : List Nat) :
    (b64encodeBytes bs).filter notCRLF = b64encodeBytes bs := by
  apply List.filter_eq_self.mpr
  intro c hc
  rcases mem_b64encodeBytes bs c hc with ⟨v, rfl⟩ | rfl
  · have h := natToB64_spec v
    simp [notCRLF, h.2.1, h.2.2]
  · decide

theorem b64decodeChunks_encode (bs : List Nat) (hb : ∀ b ∈ bs, b < 256) :
    b64decodeChunks (b64encodeBytes bs) = some bs := by
  induction bs using b64encodeBytes.induct with
  | case1 => rfl
  | case2 b1 =>
      have h1 : b1 < 256 := hb b1 (by simp)
      simp only [b64encodeBytes, b64decodeChunks]
      rw [if_pos (by simp)]
      rw [b64Index_natToB64 _ (by omega), b64Index_natToB64 _ (by omega)]
      simp only [Option.some.injEq, List.cons.injEq, and_true]
      omega
  | case3 b1 b2 =>
      have h1 : b1 < 256 := hb b1 (by simp)
      have h2 : b2 < 256 := hb b2 (by simp)
      have hne3 : natToB64 (b2 % 16 * 4) ≠ '=' := (natToB64_spec _).1
      simp only [b64encodeBytes, b64decodeChunks]
      rw [if_neg (by simp [hne3]), if_pos (by simp)]
      rw [b64Index_natToB64 _ (by omega), b64Index_natToB64 _ (by omega),
          b64Index_natToB64 _ (by omega)]
      simp only [Option.some.injEq, List.cons.injEq, and_true]
      omega
  | case4 b1 b2 b3 rest ih =>
      have h1 : b1 < 256 := hb b1 (by simp)
      have h2 : b2 < 256 := hb b2 (by simp)
      have h3 : b3 < 256 := hb b3 (by simp)
      have hrest : ∀ b ∈ rest, b < 256 := fun b hbm => hb b (by simp [hbm])
      have hne4 : natToB64 (b3 % 64) ≠ '=' := (natToB64_spec _).1
      simp only [b64encodeBytes, b64decodeChunks]
      rw [if_neg (by simp [hne4]), if_neg (by simp [hne4])]
      rw [b64Index_natToB64 _ (by omega), b64Index_natToB64 _ (by omega),
          b64Index_natToB64 _ (by omega), b64Index_natToB64 _ (by omega),
          ih hrest]
      simp only [Option.some.injEq, List.cons.injEq, and_true]
      refine ⟨by omega, by omega, by omega⟩

theorem b64decode_encode (bs : List Nat) (hb : ∀ b ∈ bs, b < 256) :
    b64decode (b64encodeBytes bs) = some bs := by
  unfold b64decode
  rw [b64encode_filter, b64decodeChunks_encode bs hb]

/-- Strip every trailing '=' from a token, as in the padded-versus-unpadded
robustness claim about cursor decoding. -/
def stripPadding (cs : List Char) : List Char :=
  (cs.reverse.dropWhile (· = '=')).reverse

theorem dropWhile_append_of_ne_nil (p : Char → Bool) (l1 l2 : List Char)
    (h : l1.dropWhile p ≠ []) :
    (l1 ++ l2).dropWhile p = l1.dropWhile p ++ l2 := by
  induction l1 with
  | nil => exact absurd rfl h
  | cons a t ih =>
      by_cases hp : p a
      · rw [List.cons_append, List.dropWhile_cons_of_pos hp,
            List.dropWhile_cons_of_pos hp]
        apply ih
        rwa [List.dropWhile_cons_of_pos hp] at h
      · rw [List.cons_append, List.dropWhile_cons_of_neg hp,
            List.dropWhile_cons_of_neg hp, List.cons_append]

theorem stripPadding_append (xs ys : List Char) (h : stripPadding ys ≠ []) :
    stripPadding (xs ++ ys) = xs ++ stripPadding ys := by
  have hdw : ys.reverse.dropWhile (· = '=') ≠ [] := by
    intro hnil
    apply h
    unfold stripPadding
    rw [hnil]
    rfl
  unfold stripPadding
  rw [List.reverse_append, dropWhile_append_of_ne_nil _ _ _ hdw,
      List.reverse_append, List.reverse_reverse]

theorem stripPadding_sublist (cs : List Char) : List.Sublist (stripPadding cs) cs := by
  have h1 : List.Sublist (cs.reverse.dropWhile (· = '=')) cs.reverse :=
    List.dropWhile_sublist _
  have h2 := h1.reverse
  rwa [List.reverse_reverse] at h2

theorem notCRLF_of_mem_encode (bs : List Nat) (c : Char)
    (hc : c ∈ b64encodeBytes bs) : notCRLF c = true := by
  rcases mem_b64encodeBytes bs c hc with ⟨v, rfl⟩ | rfl
  · have h := natToB64_spec v
    simp [notCRLF, h.2.1, h.2.2]
  · decide

theorem stripPadding_encode_one (b1 : Nat) :
    stripPadding (b64encodeBytes [b1]) =
      [natToB64 (b1 / 4), natToB64 (b1 % 4 * 16)] := by
  have hB : ((natToB64 (b1 % 4 * 16) = '=') = False) := by
    simp [(natToB64_spec _).1]
  simp [stripPadding, b64encodeBytes, List.dropWhile, hB]

theorem stripPadding_encode_two (b1 b2 : Nat) :
    stripPadding (b64encodeBytes [b1, b2]) =
      [natToB64 (b1 / 4), natToB64 (b1 % 4 * 16 + b2 / 16),
       natToB64 (b2 % 16 * 4)] := by
  have hC : ((natToB64 (b2 % 16 * 4) = '=') = False) := by
    simp [(natToB64_spec _).1]
  simp [stripPadding, b64encodeBytes, List.dropWhile, hC]

theorem stripPadding_encode_full (bs : List Nat) (h3 : bs.length % 3 = 0) :
    stripPadding (b64encodeBytes bs) = b64encodeBytes bs := by
  induction bs using b64encodeBytes.induct with
  | case1 => rfl
  | case2 b1 => simp at h3
  | case3 b1 b2 => simp at h3
  | case4 b1 b2 b3 rest ih =>
      have hr3 : rest.length % 3 = 0 := by
        simp only [List.length_cons] at h3
        omega
      by_cases hrn : rest = []
      · subst hrn
        have hD : ((natToB64 (b3 % 64) = '=') = False) := by
          simp [(natToB64_spec _).1]
        simp [stripPadding, b64encodeBytes, List.dropWhile, hD]
      · have hen : b64encodeBytes rest ≠ [] := by
          rw [ne_eq, b64encodeBytes_eq_nil_iff]
          exact hrn
        have hsn : stripPadding (b64encodeBytes rest) ≠ [] := by
          rw [ih hr3]
          exact hen
        have happ :
            b64encodeBytes (b1 :: b2 :: b3 :: rest) =
              [natToB64 (b1 / 4), natToB64 (b1 % 4 * 16 + b2 / 16),
               natToB64 (b2 % 16 * 4 + b3 / 64), natToB64 (b3 % 64)] ++
              b64encodeBytes rest := by
          simp [b64encodeBytes]
        rw [happ, stripPadding_append _ _ hsn, ih hr3]

theorem b64decodeChunks_bad_len :
    ∀ cs : List Char, cs.length % 4 ≠ 0 → b64decodeChunks cs = none
  | [], h => by simp at h
  | [_], _ => rfl
  | [_, _], _ => rfl
  | [_, _, _], _ => rfl
  | c1 :: c2 :: c3 :: c4 :: rest, h => by
      have hr : rest.length % 4 ≠ 0 := by
        simp only [List.length_cons] at h
        omega
      have hrne : rest ≠ [] := by
        intro he
        subst he
        simp at hr
      have ih := b64decodeChunks_bad_len rest hr
      simp only [b64decodeChunks]
      rw [if_neg (by simp [hrne]), if_neg (by simp [hrne]), ih]
      cases b64Index c1 <;> cases b64Index c2 <;> cases b64Index c3 <;>
        cases b64Index c4 <;> rfl

theorem stripPadding_encode_len (bs : List Nat) (hne : bs ≠ [])
    (h3 : bs.length % 3 ≠ 0) :
    (stripPadding (b64encodeBytes bs)).length % 4 ≠ 0 ∧
      stripPadding (b64encodeBytes bs) ≠ [] := by
  induction bs using b64encodeBytes.induct with
  | case1 => exact absurd rfl hne
  | case2 b1 => rw [stripPadding_encode_one]; simp
  | case3 b1 b2 => rw [stripPadding_encode_two]; simp
  | case4 b1 b2 b3 rest ih =>
      have hr3 : rest.length % 3 ≠ 0 := by
        simp only [List.length_cons] at h3
        omega
      have hrn : rest ≠ [] := by
        intro he
        subst he
        simp at hr3
      obtain ⟨ihl, ihn⟩ := ih hrn hr3
      have happ :
          b64encodeBytes (b1 :: b2 :: b3 :: rest) =
            [natToB64 (b1 / 4), natToB64 (b1 % 4 * 16 + b2 / 16),
             natToB64 (b2 % 16 * 4 + b3 / 64), natToB64 (b3 % 64)] ++
            b64encodeBytes rest := by
        simp [b64encodeBytes]
      rw [happ, stripPadding_append _ _ ihn]
      constructor
      · simp only [List.length_append, List.length_cons, List.length_nil]
        omega
      · simp

theorem b64decode_strip_encode (bs : List Nat) (hne : bs ≠ [])
    (h3 : bs.length % 3 ≠ 0) :
    b64decode (stripPadding (b64encodeBytes bs)) = none := by
  obtain ⟨hlen, _⟩ := stripPadding_encode_len bs hne h3
  unfold b64decode
  have hfil :
      (stripPadding (b64encodeBytes bs)).filter notCRLF =
        stripPadding (b64encodeBytes bs) := by
    apply List.filter_eq_self.mpr
    intro c hc
    exact notCRLF_of_mem_encode bs c ((stripPadding_sublist _).mem hc)
  rw [hfil]
  exact b64decodeChunks_bad_len _ hlen

/-- Model of a Go `time.Time` instant as (seconds, nanoseconds); the codec
model only ever compares instants for equality with the zero instant. -/
structure GoTime where
  sec : Int
  nsec : Int
deriving DecidableEq

/-- The zero `time.Time` value (`omitzero` drops the field at this value). -/
def GoTime.zero : GoTime := ⟨0, 0⟩

/-- Struct `CursorData[T]` (doc.go): ID, Value, Timestamp, Offset. -/
structure CursorData (T : Type) where
  id : String
  value : T
  timestamp : GoTime
  offset : Int
deriving DecidableEq

/-- The external JSON layer (`encoding/json`), an out-of-scope collaborator
of the library: a fallible marshaller to bytes and unmarshaller from bytes
for `CursorData T`.  `none` models a non-nil Go error. -/
structure JsonCodec (T : Type) where
  marshal : CursorData T → Option (List Nat)
  unmarshal : List Nat → Option (CursorData T)

/-- Function `EncodeCursor` (doc.go): nil data encodes to the empty token;
a marshal error is returned as-is; otherwise the token is the padded
base64url encoding of the JSON bytes. -/
def EncodeCursor {T : Type} (jc : JsonCodec T) :
    Option (CursorData T) → Except PErr (List Char)
  | none => .ok []
  | some d =>
    match jc.marshal d with
    | none => .error .errMarshal
    | some bs => .ok (b64encodeBytes bs)

/-- Function `DecodeCursor` (doc.go): the empty token yields no payload and
no error; a base64 failure or a JSON unmarshal failure both yield
`ErrInvalidCursor`. -/
def DecodeCursor {T : Type} (jc : JsonCodec T) (cursor : List Char) :
    Except PErr (Option (CursorData T)) :=
  if cursor = [] then .ok none
  else
    match b64decode cursor with
    | none => .error .errInvalidCursor
    | some bs =>
      match jc.unmarshal bs with
      | none => .error .errInvalidCursor
      | some d => .ok (some d)

deriving instance DecidableEq for Except

/-- UTF-8 bytes of an ASCII string. -/
def strBytes (s : String) : List Nat := s.data.map Char.toNat

/-- Numeric value of a digit string. -/
def digitsVal (ds : List Char) : Nat :=
  ds.foldl (fun acc c => acc * 10 + (c.toNat - 48)) 0

/-- ASCII characters that need no escaping inside a JSON string literal. -/
def jsonSafeChar (c : Char) : Bool :=
  32 ≤ c.toNat && c.toNat ≤ 126 && c ≠ '"' && c ≠ '\\'

/-- The JSON fields Go emits for a `CursorData[int]` value, in struct order,
honouring `omitempty` on id/v/o (dropped at "" and 0). -/
def jsonIntFields (d : CursorData Int) : List String :=
  (if d.id ≠ "" then ["\"id\":\"" ++ d.id ++ "\""] else []) ++
  (if d.value ≠ 0 then ["\"v\":" ++ toString d.value] else []) ++
  (if d.offset ≠ 0 then ["\"o\":" ++ toString d.offset] else [])

/-- A concrete `JsonCodec Int` marshaller: the exact bytes `json.Marshal`
produces for a `CursorData[int]` whose id needs no escaping and whose
timestamp is zero (other payloads are out of this instance's domain). -/
def jsonIntMarshal (d : CursorData Int) : Option (List Nat) :=
  if d.id.data.all jsonSafeChar ∧ d.timestamp = GoTime.zero then
    some (strBytes ("\x7b" ++ String.intercalate "," (jsonIntFields d) ++ "\x7d"))
  else none

/-- Bytes back to characters, defined on ASCII inputs. -/
def bytesChars (bs : List Nat) : Option (List Char) :=
  if bs.all (· < 128) then some (bs.map Char.ofNat) else none

/-- Scan a JSON string body up to the closing quote. -/
def scanStr : List Char → Option (List Char × List Char)
  | [] => none
  | '"' :: rest => some ([], rest)
  | c :: rest =>
    match scanStr rest with
    | some (s, r) => some (c :: s, r)
    | none => none

/-- Scan a JSON integer (optional minus sign, then digits). -/
def scanInt (cs : List Char) : Option (Int × List Char) :=
  match cs with
  | '-' :: rest =>
    let ds := rest.takeWhile Char.isDigit
    if ds = [] then none
    else some (-(Int.ofNat (digitsVal ds)), rest.dropWhile Char.isDigit)
  | _ =>
    let ds := cs.takeWhile Char.isDigit
    if ds = [] then none
    else some (Int.ofNat (digitsVal ds), cs.dropWhile Char.isDigit)

/-- A parsed JSON scalar value. -/
inductive JVal where
  | jstr (s : List Char)
  | jint (n : Int)

/-- Assign a parsed field into the record under construction. -/
def applyField (d : CursorData Int) (key : List Char) : JVal → Option (CursorData Int)
  | .jstr s => if key = ['i', 'd'] then some { d with id := ⟨s⟩ } else none
  | .jint n =>
    if key = ['v'] then some { d with value := n }
    else if key = ['o'] then some { d with offset := n }
    else none

/-- Parse `key:value` pairs separated by commas, up to the closing brace. -/
def parsePairs : Nat → CursorData Int → List Char → Option (CursorData Int)
  | 0, _, _ => none
  | fuel + 1, d, cs =>
    match cs with
    | '"' :: rest =>
      match scanStr rest with
      | none => none
      | some (key, rest2) =>
        match rest2 with
        | ':' :: rest3 =>
          match
            (match rest3 with
             | '"' :: rest4 =>
               match scanStr rest4 with
               | none => none
               | some (sval, rest5) => some (JVal.jstr sval, rest5)
             | _ =>
               match scanInt rest3 with
               | none => none
               | some (n, rest5) => some (JVal.jint n, rest5)) with
          | none => none
          | some (v, rest5) =>
            match applyField d key v with
            | none => none
            | some d2 =>
              match rest5 with
              | ['\x7d'] => some d2
              | ',' :: rest6 => parsePairs fuel d2 rest6
              | _ => none
        | _ => none
    | _ => none

/-- A concrete `JsonCodec Int` unmarshaller: a small JSON-object parser for
the flat objects `jsonIntMarshal` emits (keys id/v/o, string or integer
values, last assignment wins). -/
def jsonIntUnmarshal (bs : List Nat) : Option (CursorData Int) :=
  match bytesChars bs with
  | none => none
  | some cs =>
    match cs with
    | '\x7b' :: rest =>
      match rest with
      | ['\x7d'] => some ⟨"", 0, GoTime.zero, 0⟩
      | _ => parsePairs rest.length ⟨"", 0, GoTime.zero, 0⟩ rest
    | _ => none

/-- The concrete JSON codec instance used to instantiate the cursor-codec
theorems at executable inputs. -/
def jsonIntCodec : JsonCodec Int := ⟨jsonIntMarshal, jsonIntUnmarshal⟩

/-- Decoding the token produced for marshallable bytes recovers the payload
(the shared core of the round-trip results). -/
theorem DecodeCursor_encode {T : Type} (jc : JsonCodec T) (p : CursorData T)
    (bs : List Nat) (hne : bs ≠ []) (hb : ∀ b ∈ bs, b < 256)
    (hu : jc.unmarshal bs = some p) :
    DecodeCursor jc (b64encodeBytes bs) = .ok (some p) := by
  have henc : b64encodeBytes bs ≠ [] := fun h =>
    hne ((b64encodeBytes_eq_nil_iff bs).mp h)
  unfold DecodeCursor
  rw [if_neg henc, b64decode_encode bs hb]
  simp only [hu]

/-- A concrete marshallable payload used to instantiate the codec theorems:
its JSON bytes (16 bytes, not a multiple of 3) force '=' padding. -/
def w1Payload : CursorData Int := ⟨"a", 7, GoTime.zero, 0⟩

/-- The exact `json.Marshal` bytes of `w1Payload`. -/
def w1Bytes : List Nat := strBytes "\x7b\"id\":\"a\",\"v\":7\x7d"

/-- C1: for every representable `CursorData` payload `p` (its JSON bytes
exist, are nonempty and are bytes, and unmarshal back to `p` under the same
value type `T`), `DecodeCursor[T]` of `EncodeCursor(p)` succeeds and returns
`p` field by field. -/
theorem cursor_roundtrip {T : Type} (jc : JsonCodec T) (p : CursorData T)
    (bs : List Nat) (hm : jc.marshal p = some bs) (hne : bs ≠ [])
    (hb : ∀ b ∈ bs, b < 256) (hu : jc.unmarshal bs = some p) :
    EncodeCursor jc (some p) = .ok (b64encodeBytes bs) ∧
    DecodeCursor jc (b64encodeBytes bs) = .ok (some p) := by
  constructor
  · simp [EncodeCursor, hm]
  · exact DecodeCursor_encode jc p bs hne hb hu

/-- Witness for C1 at the concrete payload `w1Payload` under the concrete
codec `jsonIntCodec`. -/
theorem cursor_roundtrip_witness :
    jsonIntCodec.marshal w1Payload = some w1Bytes ∧
    w1Bytes ≠ [] ∧ (∀ b ∈ w1Bytes, b < 256) ∧
    jsonIntCodec.unmarshal w1Bytes = some w1Payload ∧
    (EncodeCursor jsonIntCodec (some w1Payload) = .ok (b64encodeBytes w1Bytes) ∧
     DecodeCursor jsonIntCodec (b64encodeBytes w1Bytes) = .ok (some w1Payload)) :=
  ⟨by decide, by decide, by decide, by decide,
   cursor_roundtrip jsonIntCodec w1Payload w1Bytes (by decide) (by decide)
     (by decide) (by decide)⟩

/-- C3 counterexample: at the concrete payload `w1Payload`, the token
produced by `EncodeCursor` carries '=' padding; stripping that padding makes
`DecodeCursor` fail with `ErrInvalidCursor` instead of succeeding, because
Go's `base64.URLEncoding.DecodeString` demands padded input. -/
theorem cursor_unpadded_counterexample :
    EncodeCursor jsonIntCodec (some w1Payload) = .ok (b64encodeBytes w1Bytes) ∧
    stripPadding (b64encodeBytes w1Bytes) ≠ b64encodeBytes w1Bytes ∧
    DecodeCursor jsonIntCodec (stripPadding (b64encodeBytes w1Bytes)) =
      .error .errInvalidCursor := by
  decide

/-- C3 (amended): `DecodeCursor` succeeds on the exact padded base64url token
produced by `EncodeCursor(p)`; the token with its trailing '=' stripped is
accepted only when it is the very same token (no padding was present, i.e.
the JSON byte length is a multiple of 3); whenever padding was present,
`DecodeCursor` rejects the stripped token with `ErrInvalidCursor`. -/
theorem cursor_padding_behavior {T : Type} (jc : JsonCodec T)
    (p : CursorData T) (bs : List Nat) (hm : jc.marshal p = some bs)
    (hne : bs ≠ []) (hb : ∀ b ∈ bs, b < 256)
    (hu : jc.unmarshal bs = some p) :
    EncodeCursor jc (some p) = .ok (b64encodeBytes bs) ∧
    DecodeCursor jc (b64encodeBytes bs) = .ok (some p) ∧
    (bs.length % 3 = 0 →
      stripPadding (b64encodeBytes bs) = b64encodeBytes bs) ∧
    (bs.length % 3 ≠ 0 →
      DecodeCursor jc (stripPadding (b64encodeBytes bs)) =
        .error .errInvalidCursor) := by
  refine ⟨by simp [EncodeCursor, hm], DecodeCursor_encode jc p bs hne hb hu,
          fun h3 => stripPadding_encode_full bs h3, fun h3 => ?_⟩
  have hsn := (stripPadding_encode_len bs hne h3).2
  have hdec := b64decode_strip_encode bs hne h3
  unfold DecodeCursor
  rw [if_neg hsn, hdec]

/-- Witness for the amended C3 at `w1Payload`, whose 16 JSON bytes are not a
multiple of 3, so the stripped token is rejected. -/
theorem cursor_padding_behavior_witness :
    (jsonIntCodec.marshal w1Payload = some w1Bytes ∧
     w1Bytes.length % 3 ≠ 0) ∧
    DecodeCursor jsonIntCodec (b64encodeBytes w1Bytes) = .ok (some w1Payload) ∧
    DecodeCursor jsonIntCodec (stripPadding (b64encodeBytes w1Bytes)) =
      .error .errInvalidCursor :=
  ⟨⟨by decide, by decide⟩,
   (cursor_padding_behavior jsonIntCodec w1Payload w1Bytes (by decide)
     (by decide) (by decide) (by decide)).2.1,
   (cursor_padding_behavior jsonIntCodec w1Payload w1Bytes (by decide)
     (by decide) (by decide) (by decide)).2.2.2 (by decide)⟩

/-- C5: `DecodeCursor` of the empty token returns no payload and no error;
for a non-empty token, a base64 failure and a JSON unmarshal failure both
return exactly `ErrInvalidCursor`, and `ErrInvalidCursor` is the only error
`DecodeCursor` can ever return, so the two causes are indistinguishable. -/
theorem cursor_decode_failure {T : Type} (jc : JsonCodec T) :
    DecodeCursor jc [] = .ok none ∧
    (∀ cursor : List Char, cursor ≠ [] → b64decode cursor = none →
      DecodeCursor jc cursor = .error .errInvalidCursor) ∧
    (∀ (cursor : List Char) (bs : List Nat), cursor ≠ [] →
      b64decode cursor = some bs → jc.unmarshal bs = none →
      DecodeCursor jc cursor = .error .errInvalidCursor) ∧
    (∀ (cursor : List Char) (e : PErr),
      DecodeCursor jc cursor = .error e → e = .errInvalidCursor) := by
  refine ⟨rfl, ?_, ?_, ?_⟩
  · intro cursor hne hdec
    unfold DecodeCursor
    rw [if_neg hne, hdec]
  · intro cursor bs hne hdec hum
    unfold DecodeCursor
    rw [if_neg hne, hdec]
    simp only [hum]
  · intro cursor e h
    unfold DecodeCursor at h
    by_cases hc : cursor = []
    · rw [if_pos hc] at h
      exact absurd h (by simp)
    · rw [if_neg hc] at h
      cases hdec : b64decode cursor with
      | none =>
          rw [hdec] at h
          simp only [Except.error.injEq] at h
          exact h.symm
      | some bs =>
          rw [hdec] at h
          cases hum : jc.unmarshal bs with
          | none =>
              simp only [hum, Except.error.injEq] at h
              exact h.symm
          | some d => simp [hum] at h

/-- Witness for C5: a non-alphabet token fails base64 decoding, and a valid
base64 token of non-JSON bytes fails unmarshalling; both yield
`ErrInvalidCursor`. -/
theorem cursor_decode_failure_witness :
    (['!', '!', '!', '!'] : List Char) ≠ [] ∧
    b64decode ['!', '!', '!', '!'] = none ∧
    DecodeCursor jsonIntCodec ['!', '!', '!', '!'] = .error .errInvalidCursor ∧
    b64decode (b64encodeBytes (strBytes "notjson")) =
      some (strBytes "notjson") ∧
    jsonIntCodec.unmarshal (strBytes "notjson") = none ∧
    DecodeCursor jsonIntCodec (b64encodeBytes (strBytes "notjson")) =
      .error .errInvalidCursor :=
  ⟨by decide, by decide,
   (cursor_decode_failure jsonIntCodec).2.1 _ (by decide) (by decide),
   by decide, by decide,
   (cursor_decode_failure jsonIntCodec).2.2.1 (b64encodeBytes (strBytes "notjson"))
     (strBytes "notjson") (by decide) (by decide) (by decide)⟩

/-- Struct `Range` (Start, End, Unit); `end_` for Go's `End` since `end` is
a reserved word in Lean. -/
structure GoRange where
  start : Int
  end_ : Int
  unit : String
deriving DecidableEq

/-- Method `Range.Validate`: a negative start is `ErrInvalidOffset`, a
backwards range is `ErrInvalidRange`. -/
def GoRange.Validate (r : GoRange) : Option PErr :=
  if r.start < 0 then some .errInvalidOffset
  else if r.end_ < r.start then some .errInvalidRange
  else none

/-- Method `Range.ContentRangeHeader(total)`: "unit start-end/total", with
"*" for the total when it is negative (unknown). -/
def GoRange.ContentRangeHeader (r : GoRange) (total : Int) : String :=
  if total < 0 then
    r.unit ++ " " ++ toString r.start ++ "-" ++ toString r.end_ ++ "/*"
  else
    r.unit ++ " " ++ toString r.start ++ "-" ++ toString r.end_ ++ "/" ++
      toString total

/-- Struct `RangeResponse[T]`. -/
structure RangeResponse (T : Type) where
  items : List T
  start : Int
  end_ : Int
  total : Int
  unit : String

/-- Method `RangeResponse.ContentRange`: "unit */total" when there are no
items, else "unit start-end/total" (the total is printed verbatim). -/
def RangeResponse.ContentRange {T : Type} (r : RangeResponse T) : String :=
  if r.items.length = 0 then r.unit ++ " */" ++ toString r.total
  else
    r.unit ++ " " ++ toString r.start ++ "-" ++ toString r.end_ ++ "/" ++
      toString r.total

/-- Go regexp word character `\w` = `[0-9A-Za-z_]` (ASCII). -/
def isWordChar (c : Char) : Bool := c.isAlphanum || c = '_'

/-- The anchored match of `rangeRegex` = `^(\w+)=(\d+)-(\d*)$` against the
header, returning the three capture groups.  Maximal-munch scanning is
exact here because '=' is not a word character and '-' is not a digit. -/
def matchRange (h : List Char) : Option (List Char × List Char × List Char) :=
  let u := h.takeWhile isWordChar
  let r1 := h.dropWhile isWordChar
  let sd := r1.tail.takeWhile Char.isDigit
  let r2 := r1.tail.dropWhile Char.isDigit
  let ed := r2.tail
  if u ≠ [] ∧ r1.head? = some '=' ∧ sd ≠ [] ∧ r2.head? = some '-' ∧
      ed.all Char.isDigit then
    some (u, sd, ed)
  else none

/-- The declarative reading of the regex `^(\w+)=(\d+)-(\d*)$`: the header
splits as unit '=' start '-' end with the three character-class conditions. -/
def rangeGrammar (h u sd ed : List Char) : Prop :=
  h = u ++ '=' :: (sd ++ '-' :: ed) ∧ u ≠ [] ∧ (∀ c ∈ u, isWordChar c) ∧
  sd ≠ [] ∧ (∀ c ∈ sd, c.isDigit) ∧ (∀ c ∈ ed, c.isDigit)

/-- Go `strconv.ParseInt(s, 10, 64)` on the nonempty all-digit strings the
grammar produces: the value when it fits in int64, an error past 2^63-1. -/
def parseInt64Digits (ds : List Char) : Option Int :=
  if digitsVal ds ≤ 2 ^ 63 - 1 then some ((digitsVal ds : Nat) : Int) else none

/-- Function `ParseRangeHeader` (the Go code returns the pair
`(rng, rng.Validate())`, so a range and an error can be returned together). -/
def ParseRangeHeader (header : List Char) : Option GoRange × Option PErr :=
  if header = [] then (none, none)
  else
    match matchRange header with
    | none => (none, some .errInvalidRange)
    | some (unit, sd, ed) =>
      match parseInt64Digits sd with
      | none => (none, some .errInvalidOffset)
      | some s =>
        if ed = [] then
          let rng : GoRange := ⟨s, wrap64 (s + DefaultPageSize - 1), ⟨unit⟩⟩
          (some rng, rng.Validate)
        else
          match parseInt64Digits ed with
          | none => (none, some .errInvalidRange)
          | some e =>
            let rng : GoRange := ⟨s, e, ⟨unit⟩⟩
            (some rng, rng.Validate)

theorem takeWhile_split (p : Char → Bool) (xs ys : List Char) (y : Char)
    (hxs : ∀ x ∈ xs, p x) (hy : p y = false) :
    (xs ++ y :: ys).takeWhile p = xs ∧ (xs ++ y :: ys).dropWhile p = y :: ys := by
  induction xs with
  | nil => simp [List.takeWhile_cons, List.dropWhile_cons, hy]
  | cons a t ih =>
      have ha : p a := hxs a (by simp)
      have iht := ih (fun x hx => hxs x (by simp [hx]))
      simp [List.takeWhile_cons, List.dropWhile_cons, ha, iht.1, iht.2]

theorem matchRange_eq_some_iff (h u sd ed : List Char) :
    matchRange h = some (u, sd, ed) ↔ rangeGrammar h u sd ed := by
  constructor
  · intro hm
    unfold matchRange at hm
    by_cases hcond : h.takeWhile isWordChar ≠ [] ∧
        (h.dropWhile isWordChar).head? = some '=' ∧
        (h.dropWhile isWordChar).tail.takeWhile Char.isDigit ≠ [] ∧
        ((h.dropWhile isWordChar).tail.dropWhile Char.isDigit).head? = some '-' ∧
        ((h.dropWhile isWordChar).tail.dropWhile Char.isDigit).tail.all Char.isDigit
    · rw [if_pos hcond] at hm
      obtain ⟨h1, h2, h3, h4, h5⟩ := hcond
      obtain ⟨rfl, rfl, rfl⟩ : u = h.takeWhile isWordChar ∧
          sd = (h.dropWhile isWordChar).tail.takeWhile Char.isDigit ∧
          ed = ((h.dropWhile isWordChar).tail.dropWhile Char.isDigit).tail := by
        have := Option.some.inj hm
        exact ⟨congrArg Prod.fst this.symm,
               congrArg (fun x => x.2.1) this.symm,
               congrArg (fun x => x.2.2) this.symm⟩
      refine ⟨?_, h1, fun c hc => List.mem_takeWhile_imp hc, h3,
              fun c hc => List.mem_takeWhile_imp hc, ?_⟩
      · have e1 :
            h.dropWhile isWordChar =
              '=' :: (h.dropWhile isWordChar).tail := by
          cases he : h.dropWhile isWordChar with
          | nil => rw [he] at h2; simp at h2
          | cons a t => rw [he] at h2; simp at h2; simp [h2]
        have e2 :
            (h.dropWhile isWordChar).tail.dropWhile Char.isDigit =
              '-' :: ((h.dropWhile isWordChar).tail.dropWhile Char.isDigit).tail := by
          cases he : (h.dropWhile isWordChar).tail.dropWhile Char.isDigit with
          | nil => rw [he] at h4; simp at h4
          | cons a t => rw [he] at h4; simp at h4; simp [h4]
        calc h = h.takeWhile isWordChar ++ h.dropWhile isWordChar :=
              (List.takeWhile_append_dropWhile _ _).symm
          _ = h.takeWhile isWordChar ++ '=' :: (h.dropWhile isWordChar).tail := by
              rw [← e1]
          _ = _ := by
              congr 2
              calc (h.dropWhile isWordChar).tail
                  = (h.dropWhile isWordChar).tail.takeWhile Char.isDigit ++
                    (h.dropWhile isWordChar).tail.dropWhile Char.isDigit :=
                    (List.takeWhile_append_dropWhile _ _).symm
                _ = _ := by rw [← e2]
      · simpa [List.all_eq_true] using h5
    · rw [if_neg hcond] at hm
      exact absurd hm (by simp)
  · rintro ⟨rfl, hu, huw, hsd, hsdd, hedd⟩
    have hweq : isWordChar '=' = false := by decide
    have hddash : Char.isDigit '-' = false := by decide
    obtain ⟨ht1, hd1⟩ :=
      takeWhile_split isWordChar u (sd ++ '-' :: ed) '=' huw hweq
    obtain ⟨ht2, hd2⟩ := takeWhile_split Char.isDigit sd ed '-' hsdd hddash
    unfold matchRange
    rw [ht1, hd1]
    simp only [List.tail_cons, ht2, hd2, List.tail_cons]
    rw [if_pos ⟨hu, rfl, hsd, rfl, by simpa [List.all_eq_true] using hedd⟩]

theorem matchRange_nil : matchRange [] = none := by decide

theorem parseInt64Digits_ok (ds : List Char) (hle : digitsVal ds ≤ 2 ^ 63 - 1) :
    parseInt64Digits ds = some ((digitsVal ds : Nat) : Int) := by
  unfold parseInt64Digits
  rw [if_pos hle]

/-- C2: `ParseRangeHeader` follows the spec algorithm: the empty header is
"no range, no error"; `matchRange` decides exactly the regex grammar
`^(\w+)=(\d+)-(\d*)$`; a non-matching non-empty header fails with
`ErrInvalidRange`; a match with end digits present yields a Range with that
start, end and unit (when both numbers fit int64); a match with end absent
yields end = start + DefaultPageSize - 1. -/
theorem range_parse :
    (∀ h u sd ed : List Char,
      matchRange h = some (u, sd, ed) ↔ rangeGrammar h u sd ed) ∧
    ParseRangeHeader [] = (none, none) ∧
    (∀ h : List Char, h ≠ [] → matchRange h = none →
      ParseRangeHeader h = (none, some .errInvalidRange)) ∧
    (∀ h u sd ed : List Char, matchRange h = some (u, sd, ed) → ed ≠ [] →
      digitsVal sd ≤ 2 ^ 63 - 1 → digitsVal ed ≤ 2 ^ 63 - 1 →
      (ParseRangeHeader h).1 =
        some ⟨(digitsVal sd : Int), (digitsVal ed : Int), ⟨u⟩⟩) ∧
    (∀ h u sd : List Char, matchRange h = some (u, sd, []) →
      digitsVal sd + 19 ≤ 2 ^ 63 - 1 →
      (ParseRangeHeader h).1 =
        some ⟨(digitsVal sd : Int),
              (digitsVal sd : Int) + DefaultPageSize - 1, ⟨u⟩⟩) := by
  refine ⟨matchRange_eq_some_iff, rfl, ?_, ?_, ?_⟩
  · intro h hne hnm
    unfold ParseRangeHeader
    rw [if_neg hne, hnm]
  · intro h u sd ed hm hed hsd hede
    have hne : h ≠ [] := by
      intro he
      subst he
      rw [matchRange_nil] at hm
      exact absurd hm (by simp)
    unfold ParseRangeHeader
    rw [if_neg hne, hm]
    simp only [parseInt64Digits_ok sd hsd, parseInt64Digits_ok ed hede,
               if_neg hed]
  · intro h u sd hm hsd
    have hne : h ≠ [] := by
      intro he
      subst he
      rw [matchRange_nil] at hm
      exact absurd hm (by simp)
    have hw : wrap64 (((digitsVal sd : Nat) : Int) + DefaultPageSize - 1) =
        (digitsVal sd : Int) + DefaultPageSize - 1 := by
      unfold wrap64 DefaultPageSize
      omega
    unfold ParseRangeHeader
    rw [if_neg hne, hm]
    simp [parseInt64Digits_ok sd (by omega), hw]

/-- Witness for C2 on the spec's boundary examples: "", "invalid",
"items=0-24" and "items=50-". -/
theorem range_parse_witness :
    ParseRangeHeader [] = (none, none) ∧
    ("invalid".data ≠ [] ∧ matchRange "invalid".data = none ∧
      ParseRangeHeader "invalid".data = (none, some .errInvalidRange)) ∧
    (matchRange "items=0-24".data = some ("items".data, "0".data, "24".data) ∧
      (ParseRangeHeader "items=0-24".data).1 =
        some ⟨(digitsVal "0".data : Int), (digitsVal "24".data : Int),
              ⟨"items".data⟩⟩) ∧
    (matchRange "items=50-".data = some ("items".data, "50".data, []) ∧
      (ParseRangeHeader "items=50-".data).1 =
        some ⟨(digitsVal "50".data : Int),
              (digitsVal "50".data : Int) + DefaultPageSize - 1,
              ⟨"items".data⟩⟩) :=
  ⟨range_parse.2.1,
   ⟨by decide, by decide,
    range_parse.2.2.1 "invalid".data (by decide) (by decide)⟩,
   ⟨by decide,
    range_parse.2.2.2.1 "items=0-24".data "items".data "0".data "24".data
      (by decide) (by decide) (by decide) (by decide)⟩,
   ⟨by decide,
    range_parse.2.2.2.2 "items=50-".data "items".data "50".data
      (by decide) (by decide)⟩⟩

/-- C10: a header matching the grammar whose end is numerically smaller than
its start parses to the pair of the non-nil Range and the `ErrInvalidRange`
validation error — the range is returned together with the error. -/
theorem range_backwards (h u sd ed : List Char)
    (hm : matchRange h = some (u, sd, ed)) (hed : ed ≠ [])
    (hsd : digitsVal sd ≤ 2 ^ 63 - 1) (hede : digitsVal ed ≤ 2 ^ 63 - 1)
    (hlt : digitsVal ed < digitsVal sd) :
    ParseRangeHeader h =
      (some ⟨(digitsVal sd : Int), (digitsVal ed : Int), ⟨u⟩⟩,
       some .errInvalidRange) := by
  have hne : h ≠ [] := by
    intro he
    subst he
    rw [matchRange_nil] at hm
    exact absurd hm (by simp)
  have hv : GoRange.Validate
      ⟨(digitsVal sd : Int), (digitsVal ed : Int), ⟨u⟩⟩ =
      some .errInvalidRange := by
    simp only [GoRange.Validate]
    rw [if_neg (by omega), if_pos (by exact_mod_cast hlt)]
  unfold ParseRangeHeader
  rw [if_neg hne, hm]
  simp only [parseInt64Digits_ok sd hsd, parseInt64Digits_ok ed hede,
             if_neg hed]
  rw [hv]

/-- Witness for C10 at the concrete backwards header "items=10-5". -/
theorem range_backwards_witness :
    matchRange "items=10-5".data =
      some ("items".data, "10".data, "5".data) ∧
    ParseRangeHeader "items=10-5".data =
      (some ⟨(digitsVal "10".data : Int), (digitsVal "5".data : Int),
             ⟨"items".data⟩⟩,
       some .errInvalidRange) :=
  ⟨by decide,
   range_backwards "items=10-5".data "items".data "10".data "5".data
     (by decide) (by decide) (by decide) (by decide) (by decide)⟩

/-- C7 counterexample: a `RangeResponse` with one item and unknown total
(total = -1) formats the literal negative total after the slash, not the
"/*" form the claim requires for an unknown total. -/
theorem content_range_counterexample :
    RangeResponse.ContentRange
      (⟨["a"], 0, 0, -1, "items"⟩ : RangeResponse String) = "items 0-0/-1" ∧
    "items 0-0/-1" ≠ "items 0-0/*" := by
  constructor
  · rfl
  · decide

/-- C7 (amended): `Range.ContentRangeHeader(total)` yields
"unit start-end/total" for a known (non-negative) total and
"unit start-end/*" for an unknown (negative) total; the empty-set form
"unit */total" comes only from `RangeResponse.ContentRange`, which prints
the numeric total verbatim (even when negative) and yields
"unit start-end/total" when items are present. -/
theorem content_range_formatting :
    (∀ (r : GoRange) (total : Int), 0 ≤ total →
      r.ContentRangeHeader total =
        r.unit ++ " " ++ toString r.start ++ "-" ++ toString r.end_ ++ "/" ++
          toString total) ∧
    (∀ (r : GoRange) (total : Int), total < 0 →
      r.ContentRangeHeader total =
        r.unit ++ " " ++ toString r.start ++ "-" ++ toString r.end_ ++ "/*") ∧
    (∀ (T : Type) (resp : RangeResponse T), resp.items = [] →
      resp.ContentRange = resp.unit ++ " */" ++ toString resp.total) ∧
    (∀ (T : Type) (resp : RangeResponse T), resp.items ≠ [] →
      resp.ContentRange =
        resp.unit ++ " " ++ toString resp.start ++ "-" ++
          toString resp.end_ ++ "/" ++ toString resp.total) := by
  refine ⟨?_, ?_, ?_, ?_⟩
  · intro r total ht
    unfold GoRange.ContentRangeHeader
    rw [if_neg (by omega)]
  · intro r total ht
    unfold GoRange.ContentRangeHeader
    rw [if_pos ht]
  · intro T resp hi
    unfold RangeResponse.ContentRange
    rw [if_pos (by simp [hi])]
  · intro T resp hi
    unfold RangeResponse.ContentRange
    rw [if_neg (by simp [hi])]

/-- Witness for the amended C7 at the spec's own examples: a three-item page
0-2 of 100, an empty page of 100, and an unknown total. -/
theorem content_range_formatting_witness :
    (0 : Int) ≤ 100 ∧
    GoRange.ContentRangeHeader ⟨0, 2, "items"⟩ 100 = "items 0-2/100" ∧
    (-1 : Int) < 0 ∧
    GoRange.ContentRangeHeader ⟨0, 24, "items"⟩ (-1) = "items 0-24/*" ∧
    (⟨[], 0, 0, 100, "items"⟩ : RangeResponse String).items = [] ∧
    RangeResponse.ContentRange
      (⟨[], 0, 0, 100, "items"⟩ : RangeResponse String) = "items */100" ∧
    (⟨["a", "b", "c"], 0, 2, 100, "items"⟩ : RangeResponse String).items ≠ [] ∧
    RangeResponse.ContentRange
      (⟨["a", "b", "c"], 0, 2, 100, "items"⟩ : RangeResponse String) =
      "items 0-2/100" := by
  refine ⟨by decide, ?_, by decide, ?_, by decide, ?_, by decide, ?_⟩
  · rw [content_range_formatting.1 ⟨0, 2, "items"⟩ 100 (by decide)]
    rfl
  · rw [content_range_formatting.2.1 ⟨0, 24, "items"⟩ (-1) (by decide)]
    rfl
  · rw [content_range_formatting.2.2.1 String ⟨[], 0, 0, 100, "items"⟩ rfl]
    rfl
  · rw [content_range_formatting.2.2.2 String
        ⟨["a", "b", "c"], 0, 2, 100, "items"⟩ (by decide)]
    rfl

/-- Struct `Paginator` (errors.go): Page, PageSize (Go `int`, 64-bit). -/
structure Paginator where
  page : Int
  pageSize : Int
deriving DecidableEq

/-- Method `Paginator.Clone`: a field-for-field copy. -/
def Paginator.Clone (p : Paginator) : Paginator := ⟨p.page, p.pageSize⟩

/-- Function `New`: defaults. -/
def New : Paginator := ⟨DefaultPage, DefaultPageSize⟩

/-- Method `Paginator.WithPage`: clone, then set the page, coercing values
below 1 to `DefaultPage`. -/
def Paginator.WithPage (p : Paginator) (page : Int) : Paginator :=
  let clone := p.Clone
  let page := if page < 1 then DefaultPage else page
  { clone with page := page }

/-- Method `Paginator.WithPageSize`: clone, then set the size, coercing
values below `MinPageSize` to `DefaultPageSize` and values above
`MaxPageSize` down to `MaxPageSize`. -/
def Paginator.WithPageSize (p : Paginator) (size : Int) : Paginator :=
  let clone := p.Clone
  let size := if size < MinPageSize then DefaultPageSize else size
  let size := if size > MaxPageSize then MaxPageSize else size
  { clone with pageSize := size }

/-- Function `NewFromValues`. -/
def NewFromValues (page pageSize : Int) : Paginator :=
  (New.WithPage page).WithPageSize pageSize

/-- Method `Paginator.Offset`: `int64(p.Page-1) * int64(p.PageSize)` — the
subtraction happens in `int`, the product in `int64`, both wrapping. -/
def Paginator.Offset (p : Paginator) : Int :=
  wrap64 (wrap64 (p.page - 1) * p.pageSize)

/-- Method `Paginator.Validate` (the Go code wraps the sentinel errors with
`fmt.Errorf("%w ...")`; only the sentinel kind is modelled). -/
def Paginator.Validate (p : Paginator) : Option PErr :=
  if p.page < 1 then some .errInvalidPage
  else if p.pageSize < MinPageSize ∨ p.pageSize > MaxPageSize then
    some .errInvalidPageSize
  else none

/-- Struct `CursorPaginator` (doc.go): Cursor, Limit, Forward. -/
structure CursorPaginator where
  cursor : String
  limit : Int
  forward : Bool
deriving DecidableEq

/-- Function `NewCursor`: defaults. -/
def NewCursor : CursorPaginator := ⟨"", DefaultPageSize, true⟩

/-- Method `CursorPaginator.Clone`: a field-for-field copy. -/
def CursorPaginator.Clone (c : CursorPaginator) : CursorPaginator :=
  ⟨c.cursor, c.limit, c.forward⟩

/-- Method `CursorPaginator.WithLimit`: clone, then set the limit with the
same clamping as `WithPageSize`. -/
def CursorPaginator.WithLimit (c : CursorPaginator) (limit : Int) :
    CursorPaginator :=
  let clone := c.Clone
  let limit := if limit < MinPageSize then DefaultPageSize else limit
  let limit := if limit > MaxPageSize then MaxPageSize else limit
  { clone with limit := limit }

/-- Method `CursorPaginator.WithCursor`: clone, then set the cursor. -/
def CursorPaginator.WithCursor (c : CursorPaginator) (cursor : String) :
    CursorPaginator :=
  let clone := c.Clone
  { clone with cursor := cursor }

/-- Method `CursorPaginator.WithForward`: clone, then set the direction. -/
def CursorPaginator.WithForward (c : CursorPaginator) (forward : Bool) :
    CursorPaginator :=
  let clone := c.Clone
  { clone with forward := forward }

/-- Go `strconv.Atoi` on a 64-bit platform: optional sign, digits, value
within int64 range; `none` models a non-nil error (including `ErrRange`). -/
def goAtoi (s : String) : Option Int :=
  match s.data with
  | [] => none
  | '+' :: ds =>
    if ds ≠ [] ∧ ds.all Char.isDigit ∧ digitsVal ds ≤ 2 ^ 63 - 1 then
      some ((digitsVal ds : Nat) : Int)
    else none
  | '-' :: ds =>
    if ds ≠ [] ∧ ds.all Char.isDigit ∧ digitsVal ds ≤ 2 ^ 63 then
      some (-((digitsVal ds : Nat) : Int))
    else none
  | ds =>
    if ds.all Char.isDigit ∧ digitsVal ds ≤ 2 ^ 63 - 1 then
      some ((digitsVal ds : Nat) : Int)
    else none

/-- The four query parameters `FromQuery` reads from `url.Values`; each
field holds `q.Get(key)`, which is "" when the key is absent. -/
structure QueryVals where
  page : String
  pageSize : String
  limit : String
  perPage : String

/-- Function `FromQuery` (errors.go): start from defaults; each present,
numeric, positive parameter is applied through the clamping setters;
`limit` and `per_page` apply only when `page_size` is absent. -/
def FromQuery (q : QueryVals) : Paginator :=
  let p0 := New
  let p1 :=
    if q.page ≠ "" then
      match goAtoi q.page with
      | some page => if page > 0 then p0.WithPage page else p0
      | none => p0
    else p0
  let p2 :=
    if q.pageSize ≠ "" then
      match goAtoi q.pageSize with
      | some size => if size > 0 then p1.WithPageSize size else p1
      | none => p1
    else p1
  let p3 :=
    if q.limit ≠ "" ∧ q.pageSize = "" then
      match goAtoi q.limit with
      | some size => if size > 0 then p2.WithPageSize size else p2
      | none => p2
    else p2
  let p4 :=
    if q.perPage ≠ "" ∧ q.pageSize = "" then
      match goAtoi q.perPage with
      | some size => if size > 0 then p3.WithPageSize size else p3
      | none => p3
    else p3
  p4

/-- A value of the `map[string]any` consumed by `FromMap`.  Go `int`,
`int32` and `int64` values are `mInt`; `float32`/`float64` values truncate
to some integer under Go's conversion and are likewise represented as
`mInt` of that truncated integer (the truncation itself is floating-point
arithmetic outside this embedding); every other type is `mOther`. -/
inductive MapVal where
  | mInt (n : Int)
  | mStr (s : String)
  | mOther

/-- Helper `extractInt` (errors.go): numeric values pass through, strings go
through `Atoi`, everything else is 0. -/
def extractInt : MapVal → Int
  | .mInt n => n
  | .mStr s =>
    match goAtoi s with
    | some n => n
    | none => 0
  | .mOther => 0

/-- Function `FromMap` (errors.go), applied to the values stored under the
"page" and "page_size" keys (`none` = key absent). -/
def FromMap (pageV sizeV : Option MapVal) : Paginator :=
  let p0 := New
  let p1 :=
    match pageV with
    | some v => if extractInt v > 0 then p0.WithPage (extractInt v) else p0
    | none => p0
  match sizeV with
  | some v => if extractInt v > 0 then p1.WithPageSize (extractInt v) else p1
  | none => p1

theorem wrap64_eq_self (x : Int) (h1 : -(2 ^ 63) ≤ x) (h2 : x ≤ 2 ^ 63 - 1) :
    wrap64 x = x := by
  unfold wrap64
  omega

/-- C4: `Offset()` equals `(Page - 1) * PageSize` exactly whenever the
subtraction and the product stay within int64 (so the spec's concrete cases
page=3/size=20 = 40 and page=100/size=50 = 4950 hold), and with
pageSize = MaxPageSize/2 the computation is exact — no 64-bit overflow —
for every page up to 2^53. -/
theorem offset_arithmetic :
    (∀ p : Paginator,
      -(2 ^ 63) ≤ p.page - 1 → p.page - 1 ≤ 2 ^ 63 - 1 →
      -(2 ^ 63) ≤ (p.page - 1) * p.pageSize →
      (p.page - 1) * p.pageSize ≤ 2 ^ 63 - 1 →
      p.Offset = (p.page - 1) * p.pageSize) ∧
    Paginator.Offset ⟨3, 20⟩ = 40 ∧
    Paginator.Offset ⟨100, 50⟩ = 4950 ∧
    (∀ page : Int, 1 ≤ page → page ≤ 2 ^ 53 →
      Paginator.Offset ⟨page, MaxPageSize / 2⟩ =
        (page - 1) * (MaxPageSize / 2)) := by
  have hoff : ∀ p : Paginator,
      -(2 ^ 63) ≤ p.page - 1 → p.page - 1 ≤ 2 ^ 63 - 1 →
      -(2 ^ 63) ≤ (p.page - 1) * p.pageSize →
      (p.page - 1) * p.pageSize ≤ 2 ^ 63 - 1 →
      p.Offset = (p.page - 1) * p.pageSize := by
    intro p h1 h2 h3 h4
    unfold Paginator.Offset
    rw [wrap64_eq_self _ h1 h2, wrap64_eq_self _ h3 h4]
  refine ⟨hoff, by decide, by decide, ?_⟩
  intro page hp1 hp2
  have h500 : (MaxPageSize / 2 : Int) = 500 := by decide
  have := hoff ⟨page, MaxPageSize / 2⟩
  simp only [h500] at this ⊢
  apply this <;> nlinarith

/-- Witness for C4: the two concrete spec cases and a very large page
(2^31) at pageSize = MaxPageSize/2, all exact. -/
theorem offset_arithmetic_witness :
    Paginator.Offset ⟨3, 20⟩ = 40 ∧
    Paginator.Offset ⟨100, 50⟩ = 4950 ∧
    ((1 : Int) ≤ 2 ^ 31 ∧ (2 ^ 31 : Int) ≤ 2 ^ 53) ∧
    Paginator.Offset ⟨2 ^ 31, MaxPageSize / 2⟩ =
      (2 ^ 31 - 1) * (MaxPageSize / 2) :=
  ⟨offset_arithmetic.2.1, offset_arithmetic.2.2.1, ⟨by decide, by decide⟩,
   offset_arithmetic.2.2.2 (2 ^ 31) (by decide) (by decide)⟩

/-- C6: the clamping law of `CursorPaginator.WithLimit` and
`Paginator.WithPageSize`: arguments below `MinPageSize` become
`DefaultPageSize`, arguments above `MaxPageSize` become `MaxPageSize`, and
in-range arguments pass through unchanged. -/
theorem limit_clamping :
    (∀ (c : CursorPaginator) (n : Int),
      (n < MinPageSize → (c.WithLimit n).limit = DefaultPageSize) ∧
      (n > MaxPageSize → (c.WithLimit n).limit = MaxPageSize) ∧
      (MinPageSize ≤ n → n ≤ MaxPageSize → (c.WithLimit n).limit = n)) ∧
    (∀ (p : Paginator) (n : Int),
      (n < MinPageSize → (p.WithPageSize n).pageSize = DefaultPageSize) ∧
      (n > MaxPageSize → (p.WithPageSize n).pageSize = MaxPageSize) ∧
      (MinPageSize ≤ n → n ≤ MaxPageSize → (p.WithPageSize n).pageSize = n)) := by
  constructor
  · intro c n
    have hv : (c.WithLimit n).limit =
        if (if n < MinPageSize then DefaultPageSize else n) > MaxPageSize
        then MaxPageSize
        else (if n < MinPageSize then DefaultPageSize else n) := rfl
    rw [hv]
    unfold MinPageSize DefaultPageSize MaxPageSize
    refine ⟨fun h => ?_, fun h => ?_, fun h1 h2 => ?_⟩ <;>
      split_ifs <;> omega
  · intro p n
    have hv : (p.WithPageSize n).pageSize =
        if (if n < MinPageSize then DefaultPageSize else n) > MaxPageSize
        then MaxPageSize
        else (if n < MinPageSize then DefaultPageSize else n) := rfl
    rw [hv]
    unfold MinPageSize DefaultPageSize MaxPageSize
    refine ⟨fun h => ?_, fun h => ?_, fun h1 h2 => ?_⟩ <;>
      split_ifs <;> omega

/-- Witness for C6 at the defaults paginators and the concrete arguments
0 (too small), 2000 (too large) and 5 (in range). -/
theorem limit_clamping_witness :
    ((0 : Int) < MinPageSize ∧ (NewCursor.WithLimit 0).limit = DefaultPageSize) ∧
    ((2000 : Int) > MaxPageSize ∧ (NewCursor.WithLimit 2000).limit = MaxPageSize) ∧
    (MinPageSize ≤ (5 : Int) ∧ (5 : Int) ≤ MaxPageSize ∧
      (NewCursor.WithLimit 5).limit = 5) ∧
    ((0 : Int) < MinPageSize ∧ (New.WithPageSize 0).pageSize = DefaultPageSize) ∧
    ((2000 : Int) > MaxPageSize ∧ (New.WithPageSize 2000).pageSize = MaxPageSize) ∧
    (MinPageSize ≤ (5 : Int) ∧ (5 : Int) ≤ MaxPageSize ∧
      (New.WithPageSize 5).pageSize = 5) :=
  ⟨⟨by decide, (limit_clamping.1 NewCursor 0).1 (by decide)⟩,
   ⟨by decide, (limit_clamping.1 NewCursor 2000).2.1 (by decide)⟩,
   ⟨by decide, by decide, (limit_clamping.1 NewCursor 5).2.2 (by decide) (by decide)⟩,
   ⟨by decide, (limit_clamping.2 New 0).1 (by decide)⟩,
   ⟨by decide, (limit_clamping.2 New 2000).2.1 (by decide)⟩,
   ⟨by decide, by decide, (limit_clamping.2 New 5).2.2 (by decide) (by decide)⟩⟩

/-- C8: every with-X operation is a pure copy-on-write frame: it builds a
fresh value (so the receiver, a value, is never mutated), every field of
the result other than the one being set equals the corresponding receiver
field, and `Clone` copies every field. -/
theorem copy_on_write :
    (∀ (p : Paginator) (n : Int), (p.WithPage n).pageSize = p.pageSize) ∧
    (∀ (p : Paginator) (n : Int), (p.WithPageSize n).page = p.page) ∧
    (∀ (c : CursorPaginator) (n : Int),
      (c.WithLimit n).cursor = c.cursor ∧ (c.WithLimit n).forward = c.forward) ∧
    (∀ (c : CursorPaginator) (s : String),
      (c.WithCursor s).limit = c.limit ∧
      (c.WithCursor s).forward = c.forward ∧ (c.WithCursor s).cursor = s) ∧
    (∀ (c : CursorPaginator) (b : Bool),
      (c.WithForward b).cursor = c.cursor ∧
      (c.WithForward b).limit = c.limit ∧ (c.WithForward b).forward = b) ∧
    (∀ p : Paginator, p.Clone = p) ∧
    (∀ c : CursorPaginator, c.Clone = c) :=
  ⟨fun _ _ => rfl, fun _ _ => rfl, fun _ _ => ⟨rfl, rfl⟩,
   fun _ _ => ⟨rfl, rfl, rfl⟩, fun _ _ => ⟨rfl, rfl, rfl⟩,
   fun _ => rfl, fun _ => rfl⟩

/-- The validity invariant implied by the spec: a 1-based page and a page
size within the configured bounds. -/
def validInv (p : Paginator) : Prop :=
  1 ≤ p.page ∧ MinPageSize ≤ p.pageSize ∧ p.pageSize ≤ MaxPageSize

instance (p : Paginator) : Decidable (validInv p) := by
  unfold validInv
  infer_instance

theorem validInv_step (c : Prop) [Decidable c] (p : Paginator)
    (o : Option Int) (f : Paginator → Int → Paginator)
    (hf : ∀ (p : Paginator) (n : Int), validInv p → validInv (f p n))
    (hp : validInv p) :
    validInv (if c then
      match o with
      | some n => if n > 0 then f p n else p
      | none => p
    else p) := by
  split_ifs with hc
  · cases o with
    | none => exact hp
    | some n =>
        dsimp only
        by_cases hn : n > 0
        · rw [if_pos hn]
          exact hf p n hp
        · rw [if_neg hn]
          exact hp
  · exact hp

/-- C9: `New` satisfies the validity invariant (Page >= 1,
MinPageSize <= PageSize <= MaxPageSize); `WithPage` and `WithPageSize`
preserve it; `NewFromValues`, `FromQuery` and `FromMap` always establish
it; and `Validate` returns nil on every paginator satisfying it — so the
lenient constructors can never produce a value the strict validation
rejects. -/
theorem validity_invariant :
    validInv New ∧
    (∀ (p : Paginator) (n : Int), validInv p → validInv (p.WithPage n)) ∧
    (∀ (p : Paginator) (n : Int), validInv p → validInv (p.WithPageSize n)) ∧
    (∀ page pageSize : Int, validInv (NewFromValues page pageSize)) ∧
    (∀ q : QueryVals, validInv (FromQuery q)) ∧
    (∀ pageV sizeV : Option MapVal, validInv (FromMap pageV sizeV)) ∧
    (∀ p : Paginator, validInv p → p.Validate = none) := by
  have hNew : validInv New := by decide
  have hWP : ∀ (p : Paginator) (n : Int), validInv p → validInv (p.WithPage n) := by
    intro p n hp
    have hpage : (p.WithPage n).page = if n < 1 then DefaultPage else n := rfl
    have hps : (p.WithPage n).pageSize = p.pageSize := rfl
    unfold validInv at *
    rw [hpage, hps]
    unfold DefaultPage
    split_ifs <;> omega
  have hWPS : ∀ (p : Paginator) (n : Int), validInv p → validInv (p.WithPageSize n) := by
    intro p n hp
    have hps : (p.WithPageSize n).pageSize =
        if (if n < MinPageSize then DefaultPageSize else n) > MaxPageSize
        then MaxPageSize
        else (if n < MinPageSize then DefaultPageSize else n) := rfl
    have hpage : (p.WithPageSize n).page = p.page := rfl
    unfold validInv at *
    rw [hpage, hps]
    unfold MinPageSize DefaultPageSize MaxPageSize at *
    split_ifs <;> omega
  refine ⟨hNew, hWP, hWPS, ?_, ?_, ?_, ?_⟩
  · intro page pageSize
    exact hWPS _ _ (hWP _ _ hNew)
  · intro q
    unfold FromQuery
    apply validInv_step _ _ _ Paginator.WithPageSize hWPS
    apply validInv_step _ _ _ Paginator.WithPageSize hWPS
    apply validInv_step _ _ _ Paginator.WithPageSize hWPS
    apply validInv_step _ _ _ Paginator.WithPage hWP
    exact hNew
  · intro pageV sizeV
    unfold FromMap
    have hp1 : validInv (match pageV with
        | some v => if extractInt v > 0 then New.WithPage (extractInt v) else New
        | none => New) := by
      cases pageV with
      | none => exact hNew
      | some v =>
          dsimp only
          by_cases hv : extractInt v > 0
          · rw [if_pos hv]
            exact hWP _ _ hNew
          · rw [if_neg hv]
            exact hNew
    cases sizeV with
    | none => exact hp1
    | some v =>
        dsimp only
        by_cases hv : extractInt v > 0
        · simp only [if_pos hv]
          exact hWPS _ _ hp1
        · simp only [if_neg hv]
          exact hp1
  · intro p hp
    unfold validInv at hp
    unfold Paginator.Validate
    unfold MinPageSize MaxPageSize at *
    rw [if_neg (by omega), if_neg (by omega)]

/-- Witness for C9 on concrete inputs, including out-of-range and
non-numeric parameters that the lenient parsers coerce to valid values. -/
theorem validity_invariant_witness :
    validInv New ∧
    validInv (New.WithPage 0) ∧
    validInv (New.WithPageSize 5000) ∧
    validInv (NewFromValues (-3) 0) ∧
    validInv (FromQuery ⟨"2", "", "5000", "abc"⟩) ∧
    validInv (FromMap (some (.mStr "7")) (some .mOther)) ∧
    Paginator.Validate (FromQuery ⟨"2", "", "5000", "abc"⟩) = none :=
  ⟨validity_invariant.1,
   validity_invariant.2.1 New 0 validity_invariant.1,
   validity_invariant.2.2.1 New 5000 validity_invariant.1,
   validity_invariant.2.2.2.1 (-3) 0,
   validity_invariant.2.2.2.2.1 ⟨"2", "", "5000", "abc"⟩,
   validity_invariant.2.2.2.2.2.1 (some (.mStr "7")) (some .mOther),
   validity_invariant.2.2.2.2.2.2 _
     (validity_invariant.2.2.2.2.1 ⟨"2", "", "5000", "abc"⟩)⟩
